import Mathlib

/-!
Formal model of the LEO satellite latency simulator (`src/src/App.jsx`):
the coordinate projection, the nearest-satellite latency engine, the
d3-based distribution aggregator and the per-tick publication step, with
the theorems that settle the specification claims about them.

JavaScript numbers are idealized as real numbers extended with the special
values `Infinity`, `-Infinity` and `NaN` (the `JSN` type below); float
rounding is abstracted away, the special-value propagation rules are kept.
-/

namespace LatencySim

open scoped Classical

/-- JavaScript numbers as the simulator manipulates them: finite values
idealized as reals, plus `Infinity` (the initial `minD` accumulator value,
line 68), `-Infinity` and `NaN` (producible by the d3 aggregation arithmetic). -/
inductive JSN where
  | fin : ℝ → JSN
  | inf : JSN
  | ninf : JSN
  | nan : JSN

/-- JavaScript `<` on numbers: any comparison with `NaN` is false,
`-Infinity < finite < Infinity`. -/
def JSN.lt : JSN → JSN → Prop
  | .fin a, .fin b => a < b
  | .fin _, .inf => True
  | .fin _, .ninf => False
  | .fin _, .nan => False
  | .inf, _ => False
  | .ninf, .fin _ => True
  | .ninf, .inf => True
  | .ninf, .ninf => False
  | .ninf, .nan => False
  | .nan, _ => False

/-- JavaScript `+` on numbers: `NaN` absorbs, opposite infinities give `NaN`,
an infinity absorbs finite values. -/
def JSN.add : JSN → JSN → JSN
  | .nan, _ => .nan
  | _, .nan => .nan
  | .inf, .ninf => .nan
  | .ninf, .inf => .nan
  | .inf, _ => .inf
  | .ninf, _ => .ninf
  | .fin _, .inf => .inf
  | .fin _, .ninf => .ninf
  | .fin a, .fin b => .fin (a + b)

/-- JavaScript unary minus on numbers. -/
def JSN.neg : JSN → JSN
  | .fin a => .fin (-a)
  | .inf => .ninf
  | .ninf => .inf
  | .nan => .nan

/-- JavaScript `-` on numbers, as addition of the negation (in particular
`Infinity - Infinity = NaN`). -/
def JSN.sub (a b : JSN) : JSN := a.add b.neg

/-- JavaScript `*` by a finite constant: a zero constant turns an infinity
into `NaN`, a negative one flips its sign. -/
noncomputable def JSN.mulC : JSN → ℝ → JSN
  | .fin a, c => .fin (a * c)
  | .inf, c => if 0 < c then .inf else if c < 0 then .ninf else .nan
  | .ninf, c => if 0 < c then .ninf else if c < 0 then .inf else .nan
  | .nan, _ => .nan

/-- JavaScript `/` by a finite constant: division of a nonzero finite value by
zero gives a signed infinity, `0 / 0` gives `NaN`, infinities keep or flip sign
with the constant's sign. -/
noncomputable def JSN.divC : JSN → ℝ → JSN
  | .fin a, c =>
      if c = 0 then (if a = 0 then .nan else if 0 < a then .inf else .ninf)
      else .fin (a / c)
  | .inf, c => if 0 < c then .inf else if c < 0 then .ninf else .nan
  | .ninf, c => if 0 < c then .ninf else if c < 0 then .inf else .nan
  | .nan, _ => .nan

/-- Whether a JavaScript number is `NaN`. -/
def JSN.isNan : JSN → Bool
  | .nan => true
  | _ => false

/-- The `toDegrees` helper (App.jsx line 39): `(rad * 180) / Math.PI`. -/
noncomputable def toDegrees (rad : ℝ) : ℝ := rad * 180 / Real.pi

/-- The `toRad` helper inside `haversine` (App.jsx line 91):
`(deg * Math.PI) / 180`. -/
noncomputable def toRad (deg : ℝ) : ℝ := deg * Real.pi / 180

/-- Truncation toward zero, the rounding JavaScript's `%` applies to the
quotient. -/
noncomputable def rtrunc (x : ℝ) : ℤ := if 0 ≤ x then ⌊x⌋ else ⌈x⌉

/-- JavaScript's remainder `a % n` on finite numbers with nonzero divisor:
`a - n * trunc (a / n)`, so the result carries the sign of the dividend. -/
noncomputable def jsMod (a n : ℝ) : ℝ := a - n * rtrunc (a / n)

/-- JavaScript `Math.atan2 y x` (range `(-π, π]`), idealized over the reals
(signed zeros collapse to `0`, so the `x = 0, y = 0` case yields `0`). -/
noncomputable def atan2 (y x : ℝ) : ℝ :=
  if 0 < x then Real.arctan (y / x)
  else if x < 0 then
    (if 0 ≤ y then Real.arctan (y / x) + Real.pi else Real.arctan (y / x) - Real.pi)
  else
    (if 0 < y then Real.pi / 2 else if y < 0 then -(Real.pi / 2) else 0)

/-- The `haversine` helper (App.jsx lines 89-100): great-circle surface
distance in km between two latitude/longitude pairs, Earth radius `R = 6371`. -/
noncomputable def haversine (lat1 lon1 lat2 lon2 : ℝ) : ℝ :=
  let R : ℝ := 6371
  let dLat := toRad (lat2 - lat1)
  let dLon := toRad (lon2 - lon1)
  let a := Real.sin (dLat / 2) ^ 2 +
    Real.cos (toRad lat1) * Real.cos (toRad lat2) * Real.sin (dLon / 2) ^ 2
  2 * R * atan2 (Real.sqrt a) (Real.sqrt (1 - a))

/-- A latitude/longitude pair in degrees: a satellite's projected position or a
ground node's fixed position. -/
structure Geo where
  lat : ℝ
  lon : ℝ

/-- An inertial position vector in km, as returned by the external propagator. -/
structure Pos3 where
  x : ℝ
  y : ℝ
  z : ℝ

/-- The coordinate projection (App.jsx lines 56-61): planar radius
`r = sqrt (x² + y²)`, longitude `atan2 y x` in degrees minus GMST in degrees,
latitude `atan2 z r` in degrees, and the `((lon + 540) % 360) - 180`
longitude normalization. -/
noncomputable def project (gmst : ℝ) (p : Pos3) : Geo :=
  let r := Real.sqrt (p.x * p.x + p.y * p.y)
  let lon := toDegrees (atan2 p.y p.x) - toDegrees gmst
  let lat := toDegrees (atan2 p.z r)
  { lat := lat, lon := jsMod (lon + 540) 360 - 180 }

/-- One parsed element-set record (App.jsx line 23): a trimmed name line plus
the two element lines, `Option`-valued because the 3-line stride can read past
the end of the input, where JavaScript yields `undefined`. -/
structure TLE where
  name : String
  l1 : Option String
  l2 : Option String

/-- The satellite positions of one tick (App.jsx lines 49-63): propagate every
element set — the external `twoline2satrec`/`propagate` pair is the abstract
`prop` argument, returning `none` on propagation failure (`if (!pos) return
null`) — project the present positions, and drop the absent ones
(`.filter(Boolean)`). -/
noncomputable def satPositions (prop : TLE → Option Pos3) (gmst : ℝ)
    (tles : List TLE) : List Geo :=
  (tles.map (fun t => (prop t).map (project gmst))).filterMap id

/-- The 3-line-stride TLE parsing loop (App.jsx lines 21-24): record `i` takes
lines `i`, `i + 1`, `i + 2`; indices past the end read as `undefined`. -/
def parseTles : List String → List TLE
  | [] => []
  | [a] => [⟨a.trim, none, none⟩]
  | [a, b] => [⟨a.trim, some b, none⟩]
  | a :: b :: c :: rest => ⟨a.trim, some b, some c⟩ :: parseTles rest

/-- Ingestion of the fetched catalog (App.jsx lines 20-25), input already split
at newlines: keep nonblank lines, parse in strides of 3, keep only the first
40 records (`tles.slice(0, 40)`). -/
def ingestTles (lines : List String) : List TLE :=
  (parseTles (lines.filter (fun l => decide (0 < l.trim.length)))).take 40

/-- One random ground node (App.jsx lines 32-35): latitude `r1 * 140 - 70` and
longitude `r2 * 360 - 180` from two `Math.random()` draws in `[0, 1)`. -/
noncomputable def mkGroundNode (r1 r2 : ℝ) : Geo :=
  { lat := r1 * 140 - 70, lon := r2 * 360 - 180 }

/-- The ground-node list (App.jsx lines 31-37): `d3.range(20)` mapped over a
stream of random draws, two per node. -/
noncomputable def groundNodesGen (rand : ℕ → ℝ × ℝ) : List Geo :=
  (List.range 20).map (fun i => mkGroundNode (rand i).1 (rand i).2)

/-- Distance from ground node `g` to satellite position `s`: the `haversine`
call on App.jsx line 70. -/
noncomputable def distTo (g s : Geo) : ℝ := haversine g.lat g.lon s.lat s.lon

/-- One step of the `minD` accumulation (App.jsx lines 69-72):
`if (d < minD) minD = d`. -/
noncomputable def minStep (g : Geo) (m : JSN) (s : Geo) : JSN :=
  if JSN.lt (.fin (distTo g s)) m then .fin (distTo g s) else m

/-- The per-node minimum distance (App.jsx lines 68-72): fold of `minStep` over
the satellite list starting from `minD = Infinity`. -/
noncomputable def minD (g : Geo) (sats : List Geo) : JSN :=
  sats.foldl (minStep g) .inf

/-- The latency sample of one ground node (App.jsx line 73):
`(minD / 300000) * 1000` milliseconds. -/
noncomputable def latencyOf (g : Geo) (sats : List Geo) : JSN :=
  ((minD g sats).divC 300000).mulC 1000

/-- The latency list of one tick (App.jsx lines 67-74): one sample per ground
node, in ground-node order. -/
noncomputable def latencies (nodes : List Geo) (sats : List Geo) : List JSN :=
  nodes.map (fun g => latencyOf g sats)

/-- The `d3.mean` call (App.jsx line 78): sum and count of the entries that are
neither null nor `NaN` (here: the non-`NaN` entries), divided; `NaN` stands in
for d3's `undefined` result when everything was skipped. -/
noncomputable def jsnMean (l : List JSN) : JSN :=
  let vals := l.filter (fun v => !v.isNan)
  if vals.length = 0 then .nan
  else (vals.foldl JSN.add (.fin 0)).divC (vals.length : ℝ)

/-- The ascending comparator sort `[...latencies].sort((a, b) => a - b)`
(App.jsx line 77) as a stable merge sort: `a` stays before `b` when the
comparator `a - b` is nonpositive, or `NaN` (which V8 treats as 0, keeping the
relative order). -/
noncomputable def sortJSN (l : List JSN) : List JSN :=
  l.mergeSort (fun a b =>
    match a.sub b with
    | .fin r => decide (r ≤ 0)
    | .ninf => true
    | .inf => false
    | .nan => true)

/-- The `d3.quantileSorted` computation on JavaScript numbers (App.jsx lines
79-80, also the core of `d3.median`): guard branches for empty input
(`NaN` standing in for `undefined`), `p ≤ 0` or fewer than two entries, and
`p ≥ 1`; otherwise linear interpolation at rank `(n - 1) * p`. -/
noncomputable def jsnQuantileSorted (v : List JSN) (p : ℝ) : JSN :=
  if v.length = 0 then .nan
  else if p ≤ 0 ∨ v.length < 2 then v.getD 0 .nan
  else if 1 ≤ p then v.getD (v.length - 1) .nan
  else
    let i : ℝ := ((v.length : ℝ) - 1) * p
    let i0 : ℕ := ⌊i⌋₊
    (v.getD i0 .nan).add (((v.getD (i0 + 1) .nan).sub (v.getD i0 .nan)).mulC (i - (i0 : ℝ)))

/-- The published statistics triple (the `stats` state, App.jsx line 11). -/
structure JStats where
  mean : JSN
  median : JSN
  p95 : JSN

/-- The initial snapshot `{ mean: 0, median: 0, p95: 0 }` (App.jsx line 11). -/
noncomputable def statsInit : JStats := ⟨.fin 0, .fin 0, .fin 0⟩

/-- The aggregation body (App.jsx lines 77-81): sort a copy ascending, then
mean of the raw list, median (`d3.median` sorts and takes the `0.5` quantile of
the same values) and the `0.95` quantile of the sorted list. -/
noncomputable def jsnStats (lats : List JSN) : JStats :=
  { mean := jsnMean lats
    median := jsnQuantileSorted (sortJSN lats) (1 / 2)
    p95 := jsnQuantileSorted (sortJSN lats) (95 / 100) }

/-- The tick's statistics publication (App.jsx lines 76-82): the snapshot is
replaced only when the latency list is nonempty (`if (latencies.length > 0)`),
otherwise the previous snapshot is kept. -/
noncomputable def tickStats (lats : List JSN) (prev : JStats) : JStats :=
  if 0 < lats.length then jsnStats lats else prev

/-- The comparator sort of App.jsx line 77 restricted to finite samples:
ascending order on the reals. -/
noncomputable def sortR (l : List ℝ) : List ℝ := l.mergeSort

/-- The `d3.mean` call restricted to finite samples: the arithmetic average. -/
noncomputable def meanR (l : List ℝ) : ℝ := l.sum / l.length

/-- The `d3.quantileSorted` computation restricted to finite samples: same
branch structure as `jsnQuantileSorted`, with `0` standing in for the
unreachable `undefined` of empty input. -/
noncomputable def quantileSortedR (v : List ℝ) (p : ℝ) : ℝ :=
  if v.length = 0 then 0
  else if p ≤ 0 ∨ v.length < 2 then v.getD 0 0
  else if 1 ≤ p then v.getD (v.length - 1) 0
  else
    let i : ℝ := ((v.length : ℝ) - 1) * p
    let i0 : ℕ := ⌊i⌋₊
    v.getD i0 0 + (v.getD (i0 + 1) 0 - v.getD i0 0) * (i - (i0 : ℝ))

/-- The statistics triple on finite samples. -/
structure StatsR where
  mean : ℝ
  median : ℝ
  p95 : ℝ

/-- The aggregation body (App.jsx lines 77-81) on finite samples. -/
noncomputable def aggregateR (l : List ℝ) : StatsR :=
  { mean := meanR l
    median := quantileSortedR (sortR l) (1 / 2)
    p95 := quantileSortedR (sortR l) (95 / 100) }

/-- Minimum of a list of reals (`0` for the empty list, which no claim uses). -/
noncomputable def listMin : List ℝ → ℝ
  | [] => 0
  | a :: t => t.foldl min a

/-- Maximum of a list of reals (`0` for the empty list, which no claim uses). -/
noncomputable def listMax : List ℝ → ℝ
  | [] => 0
  | a :: t => t.foldl max a

/-! ### Helper lemmas: JavaScript number arithmetic -/

lemma divC_inf_of_pos {c : ℝ} (h : 0 < c) : JSN.divC .inf c = .inf := by
  simp [JSN.divC, h]

lemma mulC_inf_of_pos {c : ℝ} (h : 0 < c) : JSN.mulC .inf c = .inf := by
  simp [JSN.mulC, h]

lemma divC_fin_of_ne_zero (a : ℝ) {c : ℝ} (h : c ≠ 0) :
    JSN.divC (.fin a) c = .fin (a / c) := by
  simp [JSN.divC, h]

lemma mulC_fin (a c : ℝ) : JSN.mulC (.fin a) c = .fin (a * c) := rfl

lemma add_fin_zero_inf : JSN.add (.fin 0) .inf = .inf := rfl

lemma add_inf_inf : JSN.add .inf .inf = .inf := rfl

/-! ### Helper lemmas: the latency engine with no satellites -/

lemma minD_nil (g : Geo) : minD g [] = .inf := rfl

lemma latencyOf_nil (g : Geo) : latencyOf g [] = .inf := by
  unfold latencyOf
  rw [minD_nil, divC_inf_of_pos (by norm_num), mulC_inf_of_pos (by norm_num)]

lemma latencies_nil_sats (nodes : List Geo) :
    latencies nodes [] = List.replicate nodes.length JSN.inf := by
  have h : latencies nodes [] = nodes.map (fun _ => JSN.inf) :=
    List.map_congr_left (fun g _ => latencyOf_nil g)
  rw [h, List.map_const']

lemma length_latencies (nodes sats : List Geo) :
    (latencies nodes sats).length = nodes.length := by
  unfold latencies
  exact List.length_map nodes _

lemma foldl_add_inf_replicate : ∀ n : ℕ,
    (List.replicate n JSN.inf).foldl JSN.add .inf = .inf := by
  intro n
  induction n with
  | zero => rfl
  | succ k ih => rw [List.replicate_succ, List.foldl_cons, add_inf_inf]; exact ih

lemma jsnMean_replicate_inf {n : ℕ} (hn : 0 < n) :
    jsnMean (List.replicate n JSN.inf) = .inf := by
  unfold jsnMean
  have hf : (List.replicate n JSN.inf).filter (fun v => !v.isNan) =
      List.replicate n JSN.inf := by
    rw [List.filter_replicate]
    rfl
  simp only [hf, List.length_replicate]
  rw [if_neg hn.ne']
  have hsum : (List.replicate n JSN.inf).foldl JSN.add (.fin 0) = .inf := by
    obtain ⟨k, rfl⟩ := Nat.exists_eq_succ_of_ne_zero hn.ne'
    rw [List.replicate_succ, List.foldl_cons, add_fin_zero_inf]
    exact foldl_add_inf_replicate k
  rw [hsum, divC_inf_of_pos (by exact_mod_cast hn)]

lemma tickStats_all_inf_mean (nodes : List Geo) (prev : JStats) (h : nodes ≠ []) :
    (tickStats (latencies nodes []) prev).mean = JSN.inf := by
  have hn : 0 < nodes.length := List.length_pos.mpr h
  unfold tickStats
  rw [if_pos (by rw [length_latencies]; exact hn)]
  show jsnMean (latencies nodes []) = JSN.inf
  rw [latencies_nil_sats]
  exact jsnMean_replicate_inf hn

/-! ### Helper lemmas: the minimum-distance fold -/

lemma minStep_fin_lt (g s : Geo) (m : ℝ) (h : distTo g s < m) :
    minStep g (.fin m) s = .fin (distTo g s) := by
  unfold minStep
  rw [if_pos]
  exact h

lemma minStep_fin_not_lt (g s : Geo) (m : ℝ) (h : ¬ distTo g s < m) :
    minStep g (.fin m) s = .fin m := by
  unfold minStep
  rw [if_neg]
  exact h

lemma minStep_inf (g s : Geo) : minStep g .inf s = .fin (distTo g s) := by
  unfold minStep
  rw [if_pos]
  exact trivial

lemma foldl_minStep_fin (g : Geo) : ∀ (l : List Geo) (m : ℝ), ∃ d : ℝ,
    l.foldl (minStep g) (.fin m) = .fin d ∧ d ≤ m ∧
    (∀ s ∈ l, d ≤ distTo g s) ∧ (d = m ∨ ∃ s ∈ l, d = distTo g s) := by
  intro l
  induction l with
  | nil =>
    intro m
    exact ⟨m, rfl, le_refl m, by simp, Or.inl rfl⟩
  | cons s t ih =>
    intro m
    by_cases h : distTo g s < m
    · obtain ⟨d, hd, hle, hall, hcase⟩ := ih (distTo g s)
      refine ⟨d, ?_, ?_, ?_, ?_⟩
      · rw [List.foldl_cons, minStep_fin_lt g s m h]; exact hd
      · exact hle.trans h.le
      · intro s2 hs2
        rcases List.mem_cons.mp hs2 with h2 | h2
        · rw [h2]; exact hle
        · exact hall s2 h2
      · rcases hcase with h2 | ⟨s2, hs2, h2⟩
        · exact Or.inr ⟨s, List.mem_cons_self s t, h2⟩
        · exact Or.inr ⟨s2, List.mem_cons_of_mem s hs2, h2⟩
    · obtain ⟨d, hd, hle, hall, hcase⟩ := ih m
      refine ⟨d, ?_, hle, ?_, ?_⟩
      · rw [List.foldl_cons, minStep_fin_not_lt g s m h]; exact hd
      · intro s2 hs2
        rcases List.mem_cons.mp hs2 with h2 | h2
        · rw [h2]; exact hle.trans (not_lt.mp h)
        · exact hall s2 h2
      · rcases hcase with h2 | ⟨s2, hs2, h2⟩
        · exact Or.inl h2
        · exact Or.inr ⟨s2, List.mem_cons_of_mem s hs2, h2⟩

lemma minD_spec (g : Geo) (sats : List Geo) (h : sats ≠ []) : ∃ dmin : ℝ,
    minD g sats = .fin dmin ∧ (∀ s ∈ sats, dmin ≤ distTo g s) ∧
    ∃ s ∈ sats, dmin = distTo g s := by
  obtain ⟨s, t, rfl⟩ := List.exists_cons_of_ne_nil h
  obtain ⟨d, hd, hle, hall, hcase⟩ := foldl_minStep_fin g t (distTo g s)
  have hfold : minD g (s :: t) = .fin d := by
    unfold minD
    rw [List.foldl_cons, minStep_inf]
    exact hd
  refine ⟨d, hfold, ?_, ?_⟩
  · intro s2 hs2
    rcases List.mem_cons.mp hs2 with h2 | h2
    · rw [h2]; exact hle
    · exact hall s2 h2
  · rcases hcase with h2 | ⟨s2, hs2, h2⟩
    · exact ⟨s, List.mem_cons_self s t, h2⟩
    · exact ⟨s2, List.mem_cons_of_mem s hs2, h2⟩

lemma latencyOf_spec (g : Geo) (sats : List Geo) (h : sats ≠ []) : ∃ dmin : ℝ,
    latencyOf g sats = .fin (dmin / 300000 * 1000) ∧
    (∀ s ∈ sats, dmin ≤ distTo g s) ∧ ∃ s ∈ sats, dmin = distTo g s := by
  obtain ⟨dmin, hd, hall, hmem⟩ := minD_spec g sats h
  refine ⟨dmin, ?_, hall, hmem⟩
  unfold latencyOf
  rw [hd, divC_fin_of_ne_zero dmin (by norm_num), mulC_fin]

/-! ### Helper lemmas: satellite position filtering and ingestion -/

lemma satPositions_eq_filterMap (prop : TLE → Option Pos3) (gmst : ℝ)
    (tles : List TLE) : satPositions prop gmst tles =
    tles.filterMap (fun t => (prop t).map (project gmst)) := by
  unfold satPositions
  rw [List.filterMap_map]
  rfl

lemma satPositions_erase_absent (prop : TLE → Option Pos3) (gmst : ℝ)
    (pre post : List TLE) (t : TLE) (h : prop t = none) :
    satPositions prop gmst (pre ++ t :: post) = satPositions prop gmst (pre ++ post) := by
  rw [satPositions_eq_filterMap, satPositions_eq_filterMap,
    List.filterMap_append, List.filterMap_append, List.filterMap_cons]
  simp [h]

lemma satPositions_length (prop : TLE → Option Pos3) (gmst : ℝ) (tles : List TLE) :
    (satPositions prop gmst tles).length =
    (tles.filter (fun t => (prop t).isSome)).length := by
  rw [satPositions_eq_filterMap]
  induction tles with
  | nil => rfl
  | cons t rest ih =>
    rw [List.filterMap_cons, List.filter_cons]
    cases h : prop t <;> simp [h, ih]

lemma ingestTles_length_le (lines : List String) : (ingestTles lines).length ≤ 40 := by
  unfold ingestTles
  rw [List.length_take]
  exact min_le_left _ _

/-! ### Helper lemmas: atan2 and the longitude normalization -/

lemma arctan_nonpos_of_nonpos {t : ℝ} (h : t ≤ 0) : Real.arctan t ≤ 0 := by
  have := Real.arctan_strictMono.monotone h
  rwa [Real.arctan_zero] at this

lemma arctan_pos_of_pos {t : ℝ} (h : 0 < t) : 0 < Real.arctan t := by
  have := Real.arctan_strictMono h
  rwa [Real.arctan_zero] at this

lemma atan2_range (y x : ℝ) : -Real.pi < atan2 y x ∧ atan2 y x ≤ Real.pi := by
  have hpi := Real.pi_pos
  have hlt : ∀ t : ℝ, Real.arctan t < Real.pi / 2 := Real.arctan_lt_pi_div_two
  have hgt : ∀ t : ℝ, -(Real.pi / 2) < Real.arctan t := Real.neg_pi_div_two_lt_arctan
  unfold atan2
  split_ifs with h1 h2 h3 h4 h5
  · exact ⟨by linarith [hgt (y / x)], by linarith [hlt (y / x)]⟩
  · have hyx : y / x ≤ 0 := by
      rw [div_nonpos_iff]
      exact Or.inl ⟨h3, h2.le⟩
    have := arctan_nonpos_of_nonpos hyx
    exact ⟨by linarith [hgt (y / x)], by linarith⟩
  · have hyx : 0 < y / x := div_pos_of_neg_of_neg (not_le.mp h3) h2
    have := arctan_pos_of_pos hyx
    exact ⟨by linarith, by linarith [hlt (y / x)]⟩
  · exact ⟨by linarith, by linarith⟩
  · exact ⟨by linarith, by linarith⟩
  · exact ⟨by linarith, by linarith⟩

lemma toDegrees_le_toDegrees {a b : ℝ} (h : a ≤ b) : toDegrees a ≤ toDegrees b := by
  unfold toDegrees
  exact (div_le_div_right Real.pi_pos).mpr (by nlinarith)

lemma toDegrees_lt_toDegrees {a b : ℝ} (h : a < b) : toDegrees a < toDegrees b := by
  unfold toDegrees
  exact (div_lt_div_right Real.pi_pos).mpr (by nlinarith)

lemma toDegrees_pi : toDegrees Real.pi = 180 := by
  unfold toDegrees
  rw [div_eq_iff Real.pi_ne_zero]
  ring

lemma toDegrees_neg_pi : toDegrees (-Real.pi) = -180 := by
  unfold toDegrees
  rw [div_eq_iff Real.pi_ne_zero]
  ring

lemma toDegrees_zero : toDegrees 0 = 0 := by
  unfold toDegrees
  ring

lemma toDegrees_two_pi : toDegrees (2 * Real.pi) = 360 := by
  unfold toDegrees
  rw [div_eq_iff Real.pi_ne_zero]
  ring

lemma jsMod_360_range {a : ℝ} (ha : 0 < a) : 0 ≤ jsMod a 360 ∧ jsMod a 360 < 360 := by
  unfold jsMod rtrunc
  have h : 0 ≤ a / 360 := by positivity
  rw [if_pos h]
  have h1 := Int.fract_nonneg (a / 360)
  have h2 := Int.fract_lt_one (a / 360)
  have e : a - 360 * (⌊a / 360⌋ : ℝ) = 360 * Int.fract (a / 360) := by
    rw [Int.fract]
    ring
  constructor
  · rw [e]; positivity
  · rw [e]; linarith

lemma project_lon_range (x y z gmst : ℝ) (h0 : 0 ≤ gmst) (h1 : gmst < 2 * Real.pi) :
    -180 ≤ (project gmst ⟨x, y, z⟩).lon ∧ (project gmst ⟨x, y, z⟩).lon < 180 := by
  have hlon : (project gmst ⟨x, y, z⟩).lon =
      jsMod (toDegrees (atan2 y x) - toDegrees gmst + 540) 360 - 180 := rfl
  have hr := atan2_range y x
  have hraw1 : -180 < toDegrees (atan2 y x) := by
    have := toDegrees_lt_toDegrees hr.1
    rwa [toDegrees_neg_pi] at this
  have hraw2 : toDegrees (atan2 y x) ≤ 180 := by
    have := toDegrees_le_toDegrees hr.2
    rwa [toDegrees_pi] at this
  have hg1 : 0 ≤ toDegrees gmst := by
    have := toDegrees_le_toDegrees h0
    rwa [toDegrees_zero] at this
  have hg2 : toDegrees gmst < 360 := by
    have := toDegrees_lt_toDegrees h1
    rwa [toDegrees_two_pi] at this
  have hpos : 0 < toDegrees (atan2 y x) - toDegrees gmst + 540 := by linarith
  have hm := jsMod_360_range hpos
  rw [hlon]
  exact ⟨by linarith [hm.1], by linarith [hm.2]⟩

lemma atan2_zero_one : atan2 0 1 = 0 := by
  unfold atan2
  rw [if_pos one_pos]
  norm_num [Real.arctan_zero]

lemma project_lon_neg_180 : (project Real.pi ⟨1, 0, 0⟩).lon = -180 := by
  have hlon : (project Real.pi ⟨1, 0, 0⟩).lon =
      jsMod (toDegrees (atan2 0 1) - toDegrees Real.pi + 540) 360 - 180 := rfl
  rw [hlon, atan2_zero_one, toDegrees_zero, toDegrees_pi]
  norm_num
  unfold jsMod rtrunc
  norm_num

/-! ### Helper lemmas: haversine -/

lemma toRad_zero : toRad 0 = 0 := by
  unfold toRad
  ring

lemma haversine_self (lat lon : ℝ) : haversine lat lon lat lon = 0 := by
  unfold haversine
  simp [toRad_zero, atan2_zero_one]

lemma haversine_symm (lat1 lon1 lat2 lon2 : ℝ) :
    haversine lat1 lon1 lat2 lon2 = haversine lat2 lon2 lat1 lon1 := by
  unfold haversine
  have e1 : toRad (lat1 - lat2) / 2 = -(toRad (lat2 - lat1) / 2) := by
    unfold toRad
    ring
  have e2 : toRad (lon1 - lon2) / 2 = -(toRad (lon2 - lon1) / 2) := by
    unfold toRad
    ring
  simp only [e1, e2, Real.sin_neg, neg_sq]
  ring_nf

/-! ### Helper lemmas: ground nodes -/

lemma groundNodesGen_length (rand : ℕ → ℝ × ℝ) : (groundNodesGen rand).length = 20 := by
  unfold groundNodesGen
  rw [List.length_map, List.length_range]

lemma mkGroundNode_bounds {r1 r2 : ℝ} (h1 : 0 ≤ r1) (h2 : r1 < 1) (h3 : 0 ≤ r2)
    (h4 : r2 < 1) :
    -70 ≤ (mkGroundNode r1 r2).lat ∧ (mkGroundNode r1 r2).lat < 70 ∧
    -180 ≤ (mkGroundNode r1 r2).lon ∧ (mkGroundNode r1 r2).lon < 180 := by
  unfold mkGroundNode
  dsimp only
  exact ⟨by nlinarith, by nlinarith, by nlinarith, by nlinarith⟩

lemma groundNodesGen_zero_head :
    ((groundNodesGen (fun _ => (0, 0))).getD 0 ⟨0, 0⟩).lat = -70 := by
  have h : (groundNodesGen (fun _ => (0, 0))).getD 0 ⟨0, 0⟩ = mkGroundNode 0 0 := by
    unfold groundNodesGen
    rw [List.getD_eq_getElem _ _ (by simp)]
    simp
  rw [h]
  unfold mkGroundNode
  norm_num

/-! ### Helper lemmas: list minimum, maximum and mean -/

lemma foldl_min_le (t : List ℝ) : ∀ a : ℝ,
    t.foldl min a ≤ a ∧ ∀ x ∈ t, t.foldl min a ≤ x := by
  induction t with
  | nil =>
    intro a
    exact ⟨le_refl a, by simp⟩
  | cons b t ih =>
    intro a
    rw [List.foldl_cons]
    obtain ⟨h1, h2⟩ := ih (min a b)
    refine ⟨h1.trans (min_le_left a b), ?_⟩
    intro x hx
    rcases List.mem_cons.mp hx with h | h
    · rw [h]
      exact h1.trans (min_le_right a b)
    · exact h2 x h

lemma foldl_le_max (t : List ℝ) : ∀ a : ℝ,
    a ≤ t.foldl max a ∧ ∀ x ∈ t, x ≤ t.foldl max a := by
  induction t with
  | nil =>
    intro a
    exact ⟨le_refl a, by simp⟩
  | cons b t ih =>
    intro a
    rw [List.foldl_cons]
    obtain ⟨h1, h2⟩ := ih (max a b)
    refine ⟨(le_max_left a b).trans h1, ?_⟩
    intro x hx
    rcases List.mem_cons.mp hx with h | h
    · rw [h]
      exact (le_max_right a b).trans h1
    · exact h2 x h

lemma listMin_le_mem {l : List ℝ} {x : ℝ} (hx : x ∈ l) : listMin l ≤ x := by
  cases l with
  | nil => cases hx
  | cons a t =>
    unfold listMin
    rcases List.mem_cons.mp hx with h | h
    · rw [h]
      exact (foldl_min_le t a).1
    · exact (foldl_min_le t a).2 x h

lemma mem_le_listMax {l : List ℝ} {x : ℝ} (hx : x ∈ l) : x ≤ listMax l := by
  cases l with
  | nil => cases hx
  | cons a t =>
    unfold listMax
    rcases List.mem_cons.mp hx with h | h
    · rw [h]
      exact (foldl_le_max t a).1
    · exact (foldl_le_max t a).2 x h

lemma meanR_bounds {l : List ℝ} (h : l ≠ []) :
    listMin l ≤ meanR l ∧ meanR l ≤ listMax l := by
  have hn : 0 < (l.length : ℝ) := by exact_mod_cast List.length_pos.mpr h
  have hlow : (l.length : ℝ) * listMin l ≤ l.sum := by
    have := List.card_nsmul_le_sum l (listMin l) (fun x hx => listMin_le_mem hx)
    rwa [nsmul_eq_mul] at this
  have hhigh : l.sum ≤ (l.length : ℝ) * listMax l := by
    have := List.sum_le_card_nsmul l (listMax l) (fun x hx => mem_le_listMax hx)
    rwa [nsmul_eq_mul] at this
  unfold meanR
  constructor
  · rw [le_div_iff hn, mul_comm]
    exact hlow
  · rw [div_le_iff hn, mul_comm]
    exact hhigh

/-! ### Helper lemmas: the sorted-array quantile -/

lemma sorted_getD_mono {v : List ℝ} (hs : List.Sorted (· ≤ ·) v) {i j : ℕ}
    (hij : i ≤ j) (hj : j < v.length) : v.getD i 0 ≤ v.getD j 0 := by
  rcases eq_or_lt_of_le hij with rfl | hlt
  · exact le_refl _
  · have hi : i < v.length := hlt.trans hj
    rw [List.getD_eq_getElem _ _ hi, List.getD_eq_getElem _ _ hj]
    exact List.pairwise_iff_getElem.mp hs i j hi hj hlt

lemma quantileSortedR_interp (v : List ℝ) (p : ℝ) (h0 : ¬ v.length = 0)
    (hb : ¬ (p ≤ 0 ∨ v.length < 2)) (hc : ¬ 1 ≤ p) :
    quantileSortedR v p =
      v.getD ⌊((v.length : ℝ) - 1) * p⌋₊ 0 +
        (v.getD (⌊((v.length : ℝ) - 1) * p⌋₊ + 1) 0 -
          v.getD ⌊((v.length : ℝ) - 1) * p⌋₊ 0) *
          (((v.length : ℝ) - 1) * p - (⌊((v.length : ℝ) - 1) * p⌋₊ : ℝ)) := by
  unfold quantileSortedR
  rw [if_neg h0, if_neg hb, if_neg hc]

lemma interp_facts {n : ℕ} (hn2 : 2 ≤ n) {p : ℝ} (hp : 0 < p) (hq : p < 1) :
    0 < ((n : ℝ) - 1) * p ∧ ((n : ℝ) - 1) * p < (n : ℝ) - 1 ∧
      ⌊((n : ℝ) - 1) * p⌋₊ + 1 ≤ n - 1 := by
  have hn1 : (1 : ℝ) ≤ (n : ℝ) - 1 := by
    have : (2 : ℝ) ≤ (n : ℝ) := by exact_mod_cast hn2
    linarith
  have hipos : 0 < ((n : ℝ) - 1) * p := mul_pos (by linarith) hp
  have hilt : ((n : ℝ) - 1) * p < (n : ℝ) - 1 :=
    mul_lt_of_lt_one_right (by linarith) hq
  refine ⟨hipos, hilt, ?_⟩
  have hfloor : ⌊((n : ℝ) - 1) * p⌋₊ < n - 1 := by
    rw [Nat.floor_lt hipos.le]
    have hcast : ((n - 1 : ℕ) : ℝ) = (n : ℝ) - 1 := by
      have h1 : 1 ≤ n := by omega
      push_cast [h1]
      ring
    rw [hcast]
    exact hilt
  omega

lemma quantileSortedR_bounds {v : List ℝ} (hs : List.Sorted (· ≤ ·) v)
    (hne : v ≠ []) (p : ℝ) :
    v.getD 0 0 ≤ quantileSortedR v p ∧
      quantileSortedR v p ≤ v.getD (v.length - 1) 0 := by
  have hn : 0 < v.length := List.length_pos.mpr hne
  by_cases hb : p ≤ 0 ∨ v.length < 2
  · have he : quantileSortedR v p = v.getD 0 0 := by
      unfold quantileSortedR
      rw [if_neg hn.ne', if_pos hb]
    rw [he]
    exact ⟨le_refl _, sorted_getD_mono hs (Nat.zero_le _) (by omega)⟩
  by_cases hc : 1 ≤ p
  · have he : quantileSortedR v p = v.getD (v.length - 1) 0 := by
      unfold quantileSortedR
      rw [if_neg hn.ne', if_neg hb, if_pos hc]
    rw [he]
    exact ⟨sorted_getD_mono hs (Nat.zero_le _) (by omega), le_refl _⟩
  push_neg at hb hc
  obtain ⟨hp, hn2⟩ := hb
  obtain ⟨hipos, hilt, hidx⟩ := interp_facts hn2 hp hc
  rw [quantileSortedR_interp v p hn.ne' (by push_neg; exact ⟨hp, hn2⟩) (not_le.mpr hc)]
  set i : ℝ := ((v.length : ℝ) - 1) * p with hi_def
  set i0 : ℕ := ⌊i⌋₊ with hi0_def
  have hi0n : i0 + 1 < v.length := by omega
  have hfr0 : (i0 : ℝ) ≤ i := Nat.floor_le hipos.le
  have hfr1 : i < (i0 : ℝ) + 1 := Nat.lt_floor_add_one i
  have hv01 : v.getD i0 0 ≤ v.getD (i0 + 1) 0 :=
    sorted_getD_mono hs (Nat.le_succ i0) hi0n
  have hlow : v.getD 0 0 ≤ v.getD i0 0 :=
    sorted_getD_mono hs (Nat.zero_le _) (by omega)
  have hhigh : v.getD (i0 + 1) 0 ≤ v.getD (v.length - 1) 0 :=
    sorted_getD_mono hs (by omega) (by omega)
  have hmul0 : 0 ≤ (v.getD (i0 + 1) 0 - v.getD i0 0) * (i - (i0 : ℝ)) :=
    mul_nonneg (by linarith) (by linarith)
  have hmul1 : (v.getD (i0 + 1) 0 - v.getD i0 0) * (i - (i0 : ℝ)) ≤
      v.getD (i0 + 1) 0 - v.getD i0 0 :=
    mul_le_of_le_one_right (by linarith) (by linarith)
  constructor
  · linarith
  · linarith

lemma quantileSortedR_mono {v : List ℝ} (hs : List.Sorted (· ≤ ·) v) {p q : ℝ}
    (hp : 0 < p) (hpq : p ≤ q) (hq : q < 1) :
    quantileSortedR v p ≤ quantileSortedR v q := by
  have hq0 : 0 < q := hp.trans_le hpq
  have hp1 : p < 1 := hpq.trans_lt hq
  by_cases h0 : v.length = 0
  · unfold quantileSortedR
    rw [if_pos h0, if_pos h0]
  by_cases hsmall : v.length < 2
  · unfold quantileSortedR
    rw [if_neg h0, if_neg h0, if_pos (Or.inr hsmall), if_pos (Or.inr hsmall)]
  have hn2 : 2 ≤ v.length := not_lt.mp hsmall
  obtain ⟨hppos, hplt, hpidx⟩ := interp_facts hn2 hp hp1
  obtain ⟨hqpos, hqlt, hqidx⟩ := interp_facts hn2 hq0 hq
  rw [quantileSortedR_interp v p h0 (by push_neg; exact ⟨hp, hn2⟩) (not_le.mpr hp1),
    quantileSortedR_interp v q h0 (by push_neg; exact ⟨hq0, hn2⟩) (not_le.mpr hq)]
  set ip : ℝ := ((v.length : ℝ) - 1) * p with hip_def
  set iq : ℝ := ((v.length : ℝ) - 1) * q with hiq_def
  set a : ℕ := ⌊ip⌋₊ with ha_def
  set b : ℕ := ⌊iq⌋₊ with hb_def
  have hipq : ip ≤ iq := by
    rw [hip_def, hiq_def]
    have : (0 : ℝ) ≤ (v.length : ℝ) - 1 := by
      have : (2 : ℝ) ≤ (v.length : ℝ) := by exact_mod_cast hn2
      linarith
    exact mul_le_mul_of_nonneg_left hpq this
  have hab : a ≤ b := Nat.floor_mono hipq
  have han : a + 1 < v.length := by omega
  have hbn : b + 1 < v.length := by omega
  have hfra0 : (a : ℝ) ≤ ip := Nat.floor_le hppos.le
  have hfra1 : ip < (a : ℝ) + 1 := Nat.lt_floor_add_one ip
  have hfrb0 : (b : ℝ) ≤ iq := Nat.floor_le hqpos.le
  have hfrb1 : iq < (b : ℝ) + 1 := Nat.lt_floor_add_one iq
  have hva : v.getD a 0 ≤ v.getD (a + 1) 0 := sorted_getD_mono hs (Nat.le_succ a) han
  have hvb : v.getD b 0 ≤ v.getD (b + 1) 0 := sorted_getD_mono hs (Nat.le_succ b) hbn
  rcases eq_or_lt_of_le hab with heq | hlt
  · rw [← heq]
    have : (v.getD (a + 1) 0 - v.getD a 0) * (ip - (a : ℝ)) ≤
        (v.getD (a + 1) 0 - v.getD a 0) * (iq - (a : ℝ)) :=
      mul_le_mul_of_nonneg_left (by linarith) (by linarith)
    linarith
  · have h1 : (v.getD (a + 1) 0 - v.getD a 0) * (ip - (a : ℝ)) ≤
        v.getD (a + 1) 0 - v.getD a 0 :=
      mul_le_of_le_one_right (by linarith) (by linarith)
    have h2 : v.getD (a + 1) 0 ≤ v.getD b 0 := sorted_getD_mono hs (by omega) (by omega)
    have h3 : 0 ≤ (v.getD (b + 1) 0 - v.getD b 0) * (iq - (b : ℝ)) :=
      mul_nonneg (by linarith) (by linarith)
    linarith

/-! ### Helper lemmas: the aggregation body on finite samples -/

lemma aggregateR_bounds {l : List ℝ} (h : l ≠ []) :
    (listMin l ≤ (aggregateR l).median ∧ (aggregateR l).median ≤ listMax l) ∧
      (listMin l ≤ (aggregateR l).mean ∧ (aggregateR l).mean ≤ listMax l) ∧
      (aggregateR l).median ≤ (aggregateR l).p95 := by
  have hperm : List.Perm (sortR l) l := List.mergeSort_perm l _
  have hs : List.Sorted (· ≤ ·) (sortR l) := List.sorted_mergeSort' l
  have hne : sortR l ≠ [] := by
    intro hcon
    apply h
    have hlen := hperm.length_eq
    rw [hcon, List.length_nil] at hlen
    exact List.eq_nil_of_length_eq_zero hlen.symm
  have hn : 0 < (sortR l).length := List.length_pos.mpr hne
  have hhead : (sortR l).getD 0 0 ∈ l := by
    rw [← hperm.mem_iff, List.getD_eq_getElem _ _ hn]
    exact List.getElem_mem hn
  have hlast : (sortR l).getD ((sortR l).length - 1) 0 ∈ l := by
    rw [← hperm.mem_iff, List.getD_eq_getElem _ _ (by omega)]
    exact List.getElem_mem (by omega)
  have hmedian := quantileSortedR_bounds hs hne (1 / 2)
  have hmono : quantileSortedR (sortR l) (1 / 2) ≤ quantileSortedR (sortR l) (95 / 100) :=
    quantileSortedR_mono hs (by norm_num) (by norm_num) (by norm_num)
  have hmean := meanR_bounds h
  refine ⟨⟨?_, ?_⟩, ⟨hmean.1, hmean.2⟩, hmono⟩
  · exact (listMin_le_mem hhead).trans hmedian.1
  · exact hmedian.2.trans (mem_le_listMax hlast)

/-! ### Claim C1 -/

/-- Claim C1 counterexample: with zero valid satellite positions for a tick, a
ground node does not get an explicit no-coverage outcome and is not excluded
from the sample set — its latency entry is the numeric sentinel `Infinity`, the
sample list is nonempty, and the tick's aggregation consumes it, publishing an
infinite mean. -/
theorem c1_counterexample :
    latencies [⟨0, 0⟩] [] = [JSN.inf] ∧ latencies [⟨0, 0⟩] [] ≠ [] ∧
      (tickStats (latencies [⟨0, 0⟩] []) statsInit).mean = JSN.inf := by
  have h1 : latencies [⟨0, 0⟩] [] = [JSN.inf] := by
    have := latencies_nil_sats [⟨0, 0⟩]
    simpa using this
  refine ⟨h1, ?_, tickStats_all_inf_mean [⟨0, 0⟩] statsInit (by simp)⟩
  rw [h1]
  simp

/-- Claim C1 (amended): when the satellite position list of a tick is empty,
the Latency Engine yields the sentinel value `Infinity` (not an explicit
no-coverage outcome) for every ground node, and the Aggregator does not exclude
those nodes — the sample list keeps one entry per ground node. -/
theorem c1_empty_satellites (nodes : List Geo) :
    latencies nodes [] = List.replicate nodes.length JSN.inf ∧
      (latencies nodes []).length = nodes.length :=
  ⟨latencies_nil_sats nodes, length_latencies nodes []⟩

/-! ### Claim C2 -/

/-- Claim C2 counterexample: on a tick where every satellite reports
propagation absence (so the satellite list is empty) but the 20 ground nodes
exist, the published snapshot is not the zero/sentinel snapshot — its mean is
the non-finite value `Infinity`. -/
theorem c2_counterexample :
    satPositions (fun _ => none) 0 [⟨"SAT", none, none⟩] = [] ∧
      (tickStats (latencies (List.replicate 20 ⟨0, 0⟩)
          (satPositions (fun _ => none) 0 [⟨"SAT", none, none⟩])) statsInit).mean =
        JSN.inf ∧
      statsInit.mean = JSN.fin 0 ∧ JSN.inf ≠ JSN.fin 0 := by
  have hsp : satPositions (fun _ => none) 0 [⟨"SAT", none, none⟩] = [] := by
    rw [satPositions_eq_filterMap]
    rfl
  refine ⟨hsp, ?_, rfl, fun hcon => JSN.noConfusion hcon⟩
  rw [hsp]
  exact tickStats_all_inf_mean _ statsInit (by simp)

/-- Claim C2 (amended): a tick whose latency list is empty does not run the
aggregator at all — the guard keeps the previous snapshot (initially the zero
snapshot) — while a tick where every satellite is absent but ground nodes
exist has a nonempty sample list of `Infinity` sentinels and publishes a
snapshot with non-finite mean. -/
theorem c2_empty_and_all_absent :
    (∀ prev : JStats, tickStats [] prev = prev) ∧
      ∀ (nodes : List Geo) (prev : JStats), nodes ≠ [] →
        (tickStats (latencies nodes []) prev).mean = JSN.inf := by
  constructor
  · intro prev
    simp [tickStats]
  · intro nodes prev h
    exact tickStats_all_inf_mean nodes prev h

/-- Claim C2 witness: the amended statement instantiated at the initial
snapshot and a single ground node at the origin. -/
theorem c2_witness :
    tickStats [] statsInit = statsInit ∧
      (tickStats (latencies [⟨0, 0⟩] []) statsInit).mean = JSN.inf :=
  ⟨c2_empty_and_all_absent.1 statsInit,
    c2_empty_and_all_absent.2 [⟨0, 0⟩] statsInit (by simp)⟩

/-! ### Claim C4 -/

/-- Claim C4 counterexample: at inertial input (1, 0, 0) with GMST angle π the
projected longitude is exactly -180, violating the claimed membership in the
half-open interval (-180, 180]. -/
theorem c4_counterexample :
    (project Real.pi ⟨1, 0, 0⟩).lon = -180 ∧
      ¬ (-180 < (project Real.pi ⟨1, 0, 0⟩).lon ∧
        (project Real.pi ⟨1, 0, 0⟩).lon ≤ 180) := by
  refine ⟨project_lon_neg_180, ?_⟩
  rw [project_lon_neg_180]
  intro hcon
  exact absurd hcon.1 (by norm_num)

/-- Claim C4 (amended): for every inertial input (x, y, z) and every GMST angle
in [0, 2π) — the range produced by `gstime` — the projected longitude lies in
the half-open interval [-180, 180): at least -180 and strictly below 180. -/
theorem c4_longitude_range (x y z gmst : ℝ) (h0 : 0 ≤ gmst)
    (h1 : gmst < 2 * Real.pi) :
    -180 ≤ (project gmst ⟨x, y, z⟩).lon ∧ (project gmst ⟨x, y, z⟩).lon < 180 :=
  project_lon_range x y z gmst h0 h1

/-- Claim C4 witness: the amended longitude bound at inertial input (1, 0, 0)
and GMST angle 0. -/
theorem c4_witness :
    (0 ≤ (0 : ℝ) ∧ (0 : ℝ) < 2 * Real.pi) ∧
      (-180 ≤ (project 0 ⟨1, 0, 0⟩).lon ∧ (project 0 ⟨1, 0, 0⟩).lon < 180) :=
  ⟨⟨le_refl 0, by positivity⟩, c4_longitude_range 1 0 0 0 (le_refl 0) (by positivity)⟩

/-! ### Claim C5 -/

/-- Claim C5: with a nonempty satellite list, every ground node's latency
sample equals `(d_min / 300000) * 1000` milliseconds, where `d_min` is the
minimum haversine distance to the satellites — in particular `d_min` is at
most the distance to every candidate satellite, and is attained by one of
them. -/
theorem c5_nearest_latency (g : Geo) (sats : List Geo) (h : sats ≠ []) :
    ∃ dmin : ℝ, latencyOf g sats = JSN.fin (dmin / 300000 * 1000) ∧
      (∀ s ∈ sats, dmin ≤ distTo g s) ∧ ∃ s ∈ sats, dmin = distTo g s :=
  latencyOf_spec g sats h

/-- Claim C5 witness: the latency formula instantiated at a ground node and a
single satellite, both at the origin. -/
theorem c5_witness :
    (([⟨0, 0⟩] : List Geo) ≠ []) ∧
      ∃ dmin : ℝ, latencyOf ⟨0, 0⟩ [⟨0, 0⟩] = JSN.fin (dmin / 300000 * 1000) ∧
        (∀ s ∈ ([⟨0, 0⟩] : List Geo), dmin ≤ distTo ⟨0, 0⟩ s) ∧
        ∃ s ∈ ([⟨0, 0⟩] : List Geo), dmin = distTo ⟨0, 0⟩ s :=
  ⟨by simp, c5_nearest_latency ⟨0, 0⟩ [⟨0, 0⟩] (by simp)⟩

/-! ### Claim C6 -/

/-- Claim C6: for every nonempty list of latency values the aggregation body
satisfies `min ≤ median ≤ max`, `mean ∈ [min, max]`, and `median ≤ p95`
whenever the input has at least two distinct values. -/
theorem c6_stats_order (l : List ℝ) (h : l ≠ []) :
    (listMin l ≤ (aggregateR l).median ∧ (aggregateR l).median ≤ listMax l) ∧
      (listMin l ≤ (aggregateR l).mean ∧ (aggregateR l).mean ≤ listMax l) ∧
      ((∃ a ∈ l, ∃ b ∈ l, a ≠ b) → (aggregateR l).median ≤ (aggregateR l).p95) := by
  obtain ⟨h1, h2, h3⟩ := aggregateR_bounds h
  exact ⟨h1, h2, fun _ => h3⟩

/-- Claim C6 witness: the aggregator ordering instantiated at the two-element
sample list [1, 2]. -/
theorem c6_witness :
    (([1, 2] : List ℝ) ≠ []) ∧
      ((listMin [1, 2] ≤ (aggregateR [1, 2]).median ∧
          (aggregateR [1, 2]).median ≤ listMax [1, 2]) ∧
        (listMin [1, 2] ≤ (aggregateR [1, 2]).mean ∧
          (aggregateR [1, 2]).mean ≤ listMax [1, 2]) ∧
        ((∃ a ∈ ([1, 2] : List ℝ), ∃ b ∈ ([1, 2] : List ℝ), a ≠ b) →
          (aggregateR [1, 2]).median ≤ (aggregateR [1, 2]).p95)) :=
  ⟨by simp, c6_stats_order [1, 2] (by simp)⟩

/-! ### Claim C7 -/

/-- Claim C7: the haversine distance with Earth radius 6371 km is symmetric in
its two geographic positions, and the distance from a position to itself is
zero. -/
theorem c7_haversine_symm_zero (a b : Geo) :
    haversine a.lat a.lon b.lat b.lon = haversine b.lat b.lon a.lat a.lon ∧
      haversine a.lat a.lon a.lat a.lon = 0 :=
  ⟨haversine_symm a.lat a.lon b.lat b.lon, haversine_self a.lat a.lon⟩

/-! ### Claim C8 -/

/-- Claim C8: a satellite whose propagation yields no position contributes no
entry to the tick's position list and does not abort the tick — removing it
from the input changes nothing, the output has exactly one entry per satellite
with a resolvable position, and the output is exactly the projection of the
resolvable positions in order. -/
theorem c8_propagation_failure (prop : TLE → Option Pos3) (gmst : ℝ) :
    (∀ (pre post : List TLE) (t : TLE), prop t = none →
        satPositions prop gmst (pre ++ t :: post) = satPositions prop gmst (pre ++ post)) ∧
      (∀ tles : List TLE, (satPositions prop gmst tles).length =
        (tles.filter (fun t => (prop t).isSome)).length) ∧
      ∀ tles : List TLE, satPositions prop gmst tles =
        tles.filterMap (fun t => (prop t).map (project gmst)) :=
  ⟨fun pre post t h => satPositions_erase_absent prop gmst pre post t h,
    fun tles => satPositions_length prop gmst tles,
    fun tles => satPositions_eq_filterMap prop gmst tles⟩

/-- Claim C8 witness: dropping a satellite whose propagation is absent, at a
concrete input. -/
theorem c8_witness :
    satPositions (fun _ => none) 0 ([] ++ (⟨"SAT-1", none, none⟩ : TLE) :: []) =
      satPositions (fun _ => none) 0 ([] ++ []) :=
  (c8_propagation_failure (fun _ => none) 0).1 [] [] ⟨"SAT-1", none, none⟩ rfl

/-! ### Claim C9 -/

/-- Claim C9: ingestion truncates the tracked element-set list to its first 40
entries, so the satellite position list of every tick has length at most 40. -/
theorem c9_at_most_forty (prop : TLE → Option Pos3) (gmst : ℝ) (lines : List String) :
    (ingestTles lines).length ≤ 40 ∧
      (satPositions prop gmst (ingestTles lines)).length ≤ 40 := by
  refine ⟨ingestTles_length_le lines, ?_⟩
  calc (satPositions prop gmst (ingestTles lines)).length
      = ((ingestTles lines).filter (fun t => (prop t).isSome)).length :=
        satPositions_length prop gmst (ingestTles lines)
    _ ≤ (ingestTles lines).length := List.length_filter_le _ _
    _ ≤ 40 := ingestTles_length_le lines

/-! ### Claim C10 -/

/-- Claim C10 counterexample: the random draw 0 is legal for `Math.random()`
(it lies in [0, 1)), and with it the generated ground node has latitude exactly
-70, violating the claimed open interval (-70, 70). -/
theorem c10_counterexample :
    (0 ≤ (0 : ℝ) ∧ (0 : ℝ) < 1) ∧
      ((groundNodesGen (fun _ => (0, 0))).getD 0 ⟨0, 0⟩).lat = -70 ∧
      ¬ (-70 < ((groundNodesGen (fun _ => (0, 0))).getD 0 ⟨0, 0⟩).lat) := by
  refine ⟨⟨le_refl 0, by norm_num⟩, groundNodesGen_zero_head, ?_⟩
  rw [groundNodesGen_zero_head]
  norm_num

/-- Claim C10 (amended): the generated ground-node list has exactly 20 nodes,
and for random draws in [0, 1) every node has latitude in the half-open
interval [-70, 70) and longitude in [-180, 180) — so no node is placed in
polar latitudes above 70 degrees or at longitude exactly 180, but latitude
exactly -70 is possible. -/
theorem c10_ground_node_ranges (rand : ℕ → ℝ × ℝ)
    (h : ∀ i, 0 ≤ (rand i).1 ∧ (rand i).1 < 1 ∧ 0 ≤ (rand i).2 ∧ (rand i).2 < 1) :
    (groundNodesGen rand).length = 20 ∧
      ∀ g ∈ groundNodesGen rand,
        -70 ≤ g.lat ∧ g.lat < 70 ∧ -180 ≤ g.lon ∧ g.lon < 180 := by
  refine ⟨groundNodesGen_length rand, ?_⟩
  intro g hg
  unfold groundNodesGen at hg
  obtain ⟨i, hi, rfl⟩ := List.mem_map.mp hg
  obtain ⟨h1, h2, h3, h4⟩ := h i
  exact mkGroundNode_bounds h1 h2 h3 h4

/-- Claim C10 witness: the amended node ranges at the all-zero random stream. -/
theorem c10_witness :
    (∀ i : ℕ, 0 ≤ ((fun _ : ℕ => ((0 : ℝ), (0 : ℝ))) i).1 ∧
        ((fun _ : ℕ => ((0 : ℝ), (0 : ℝ))) i).1 < 1 ∧
        0 ≤ ((fun _ : ℕ => ((0 : ℝ), (0 : ℝ))) i).2 ∧
        ((fun _ : ℕ => ((0 : ℝ), (0 : ℝ))) i).2 < 1) ∧
      ((groundNodesGen (fun _ => (0, 0))).length = 20 ∧
        ∀ g ∈ groundNodesGen (fun _ => (0, 0)),
          -70 ≤ g.lat ∧ g.lat < 70 ∧ -180 ≤ g.lon ∧ g.lon < 180) :=
  ⟨fun i => by norm_num,
    c10_ground_node_ranges (fun _ => (0, 0)) (fun i => by norm_num)⟩

end LatencySim
